import Mathlib

/-!
# Verification of the Reversi/Othello game engine

Shallow embedding of the game-state engine of the Reversi command-line game
(final revision of `main.go`): board representation, flip resolution
(`getPointsToFlip`), legal-move enumeration (`getAvailablePoints`), the
turn/game-over state machine (`Update`), the greedy move selector
(`computeBestPoint`) and scoring (`computeScores`), together with theorems
checking the specification's claims about them.

Go integers are modelled as `Int`; the `[gridHeight][gridWidth]player` array
is modelled as a function `Fin 8 → Fin 8 → player` (row-major, `g i j` is Go's
`g[i][j]`, i.e. row `i` = y-coordinate, column `j` = x-coordinate); Go maps
used as sets (`map[vector2d]bool`) are modelled as deduplicated lists; the
bounded walk of `getPointsToFlip` is modelled with fuel that is provably
sufficient on an 8×8 board.
-/

namespace Reversi

/-- Cell/occupant value, Go's `player` constants (`DarkPlayer`, `LightPlayer`,
`Blank = -1`). -/
inductive player where
  | DarkPlayer : player
  | LightPlayer : player
  | Blank : player
deriving DecidableEq, Repr

/-- Rule variant, Go's `rules` (`ReversiRules` = historical, `OthelloRules` = modern). -/
inductive rules where
  | ReversiRules : rules
  | OthelloRules : rules
deriving DecidableEq, Repr

/-- UI / state-machine phase, Go's `view`. -/
inductive view where
  | PointSelection : view
  | PointSelectionComputer : view
  | PointConfirmation : view
  | TitleView : view
  | QuitConfirmation : view
  | GameOverView : view
  | PassView : view
deriving DecidableEq, Repr

/-- Go's `playerMode`. -/
inductive playerMode where
  | OnePlayer : playerMode
  | TwoPlayer : playerMode
deriving DecidableEq, Repr

/-- Go's `vector2d`: an integer coordinate pair (`x` = column, `y` = row). -/
structure vector2d where
  x : Int
  y : Int
deriving DecidableEq, Repr

/-- Go's `const gridWidth = 8`. -/
def gridWidth : Int := 8

/-- Go's `const gridHeight = 8`. -/
def gridHeight : Int := 8

/-- Go's `type grid [gridHeight][gridWidth]player`: `g i j` is `g[i][j]`,
row index first. -/
def grid := Fin 8 → Fin 8 → player

instance : DecidableEq grid := by unfold grid; infer_instance

/-- Go's `isPointInsideGrid`. -/
def isPointInsideGrid (p : vector2d) : Bool :=
  decide (p.x ≥ 0) && decide (p.x < gridWidth) && decide (p.y ≥ 0) && decide (p.y < gridHeight)

/-- Reading `g[p.y][p.x]`. In the Go source every such read is guarded by
`isPointInsideGrid`; out of range we return `Blank` (never relied upon). -/
def grid.get (g : grid) (p : vector2d) : player :=
  if h : isPointInsideGrid p = true then
    g ⟨p.y.toNat, by simp [isPointInsideGrid, gridWidth, gridHeight] at h; omega⟩
      ⟨p.x.toNat, by simp [isPointInsideGrid, gridWidth, gridHeight] at h; omega⟩
  else player.Blank

/-- Writing `g[p.y][p.x] = c` (total: out-of-range writes, which do not occur
in the embedded code paths, leave the grid unchanged). -/
def grid.set (g : grid) (p : vector2d) (c : player) : grid :=
  fun i j => if ((i : Nat) : Int) = p.y ∧ ((j : Nat) : Int) = p.x then c else g i j

/-- Go's `model` struct (the fields used by the game engine). -/
structure model where
  grid : grid
  selectedPoint : vector2d
  view : view
  currentPlayer : player
  disksFlipped : List vector2d
  windowSize : vector2d
  availablePoints : List vector2d
  rules : rules
  playerMode : playerMode

instance : DecidableEq model := by
  intro a b
  cases a; cases b
  rw [model.mk.injEq]
  infer_instance

/-- Incoming Bubble Tea message: a key press (`tea.KeyMsg`, identified by its
string form) or a window resize (`tea.WindowSizeMsg`). -/
inductive msg where
  | key : String → msg
  | windowSize : vector2d → msg
deriving DecidableEq

/-- The only command the engine ever returns: `tea.Quit`. -/
inductive cmd where
  | quit : cmd
deriving DecidableEq, Repr

/-- Go's `toggleCurrentPlayer`. -/
def toggleCurrentPlayer (currentPlayer : player) : player :=
  if currentPlayer = player.DarkPlayer then player.LightPlayer else player.DarkPlayer

/-- Go's `toggleRules`. -/
def toggleRules (r : rules) : rules :=
  if r = rules.ReversiRules then rules.OthelloRules else rules.ReversiRules

/-- Go's `togglePlayerMode`. -/
def togglePlayerMode (pm : playerMode) : playerMode :=
  if pm = playerMode.OnePlayer then playerMode.TwoPlayer else playerMode.OnePlayer

/-- Go's `isComputerTurn`. -/
def isComputerTurn (m : model) : Bool :=
  decide (m.playerMode = playerMode.OnePlayer) && decide (m.currentPlayer = player.LightPlayer)

/-- Go's `getNonBlankPoints`: all points `{j, i}` whose cell is not `Blank`,
scanning rows then columns. -/
def getNonBlankPoints (g : grid) : List vector2d :=
  (List.finRange 8).flatMap fun i =>
    ((List.finRange 8).filter fun j => decide (g i j ≠ player.Blank)).map fun j =>
      (⟨(j.val : Int), (i.val : Int)⟩ : vector2d)

/-- The direction list of Go's `getPointsToFlip`, in source order. -/
def directions : List vector2d :=
  [⟨0, 1⟩, ⟨1, 0⟩, ⟨1, 1⟩, ⟨0, -1⟩, ⟨-1, 0⟩, ⟨-1, -1⟩, ⟨1, -1⟩, ⟨-1, 1⟩]

/-- Fuel bound for the directional walk; on an 8×8 board a walk in any of the
8 directions leaves the board after at most 8 steps, so 16 never runs out. -/
def walkFuel : Nat := 16

/-- The inner loop of Go's `getPointsToFlip` for one direction: starting at
`p`, repeatedly step by `d`; collect the visited points while they are inside
the grid, not `Blank` and not the current player's; stop (recording whether
the stopping cell is the current player's) otherwise. Returns the collected
`pointsToFlip` and the final value of `isCurrentPlayer`. -/
def flipWalk (g : grid) (currentPlayer : player) (d : vector2d) :
    Nat → vector2d → List vector2d × Bool
  | 0, _ => ([], false)
  | fuel + 1, p =>
    if isPointInsideGrid ⟨p.x + d.x, p.y + d.y⟩ = true then
      if grid.get g ⟨p.x + d.x, p.y + d.y⟩ ≠ player.Blank ∧
          grid.get g ⟨p.x + d.x, p.y + d.y⟩ ≠ currentPlayer then
        ((⟨p.x + d.x, p.y + d.y⟩ : vector2d) ::
            (flipWalk g currentPlayer d fuel ⟨p.x + d.x, p.y + d.y⟩).1,
          (flipWalk g currentPlayer d fuel ⟨p.x + d.x, p.y + d.y⟩).2)
      else
        ([], decide (grid.get g ⟨p.x + d.x, p.y + d.y⟩ = currentPlayer))
    else
      ([], false)

/-- Go's `getPointsToFlip`: for each direction walk outward from
`selectedPoint`; a direction contributes its collected run exactly when the
walk stopped on a cell of `currentPlayer` (the loop is entered only when
`selectedPoint` itself is inside the grid, matching the initial value of the
Go loop condition). -/
def getPointsToFlip (g : grid) (selectedPoint : vector2d) (currentPlayer : player) :
    List vector2d :=
  (directions.map fun d =>
    if isPointInsideGrid selectedPoint = true then
      let r := flipWalk g currentPlayer d walkFuel selectedPoint
      if r.2 then r.1 else []
    else []).flatten

/-- Go's `flip`: set every listed point's cell to the current player's colour. -/
def flip (g : grid) (points : List vector2d) (currentPlayer : player) : grid :=
  points.foldl (fun g p => grid.set g p currentPlayer) g

/-- The 8 Moore-neighborhood offsets enumerated by `getAvailablePoints`
(`i` = y-offset outer loop, `j` = x-offset inner loop, skipping `(0,0)`),
as `⟨j, i⟩` vectors in source order. -/
def neighborOffsets : List vector2d :=
  [⟨-1, -1⟩, ⟨0, -1⟩, ⟨1, -1⟩, ⟨-1, 0⟩, ⟨1, 0⟩, ⟨-1, 1⟩, ⟨0, 1⟩, ⟨1, 1⟩]

/-- Go's `getAvailablePoints`. Under `ReversiRules` with fewer than 4 disks:
the blank in-grid subset of the four center cells. Otherwise: the set (Go:
`map[vector2d]bool`, here: deduplicated list) of all Moore neighbors of
non-blank points, kept when inside the grid, blank, and flipping at least one
point. -/
def getAvailablePoints (g : grid) (currentPlayer : player) (r : rules) : List vector2d :=
  if r = rules.ReversiRules ∧ (getNonBlankPoints g).length < 4 then
    ([⟨3, 3⟩, ⟨4, 4⟩, ⟨3, 4⟩, ⟨4, 3⟩] : List vector2d).filter fun p =>
      isPointInsideGrid p && decide (grid.get g p = player.Blank)
  else
    ((getNonBlankPoints g).flatMap fun nonBlankPoint =>
      neighborOffsets.map fun o =>
        (⟨nonBlankPoint.x + o.x, nonBlankPoint.y + o.y⟩ : vector2d)).dedup.filter
      fun neighbor =>
        isPointInsideGrid neighbor && decide (grid.get g neighbor = player.Blank) &&
          decide (0 < (getPointsToFlip g neighbor currentPlayer).length)

/-- Go's `newGrid`: all blank; under `OthelloRules` the four center cells are
seeded (`g[3][3]=Light`, `g[4][4]=Light`, `g[3][4]=Dark`, `g[4][3]=Dark`). -/
def newGrid (r : rules) : grid :=
  let g : grid := fun _ _ => player.Blank
  if r = rules.OthelloRules then
    ((((g.set ⟨3, 3⟩ player.LightPlayer).set ⟨4, 4⟩ player.LightPlayer).set
        ⟨4, 3⟩ player.DarkPlayer).set ⟨3, 4⟩ player.DarkPlayer)
  else g

/-- Go's `createInitialModel`. -/
def createInitialModel (r : rules) (pm : playerMode) : model :=
  { grid := newGrid r
    selectedPoint := ⟨3, 3⟩
    view := view.TitleView
    currentPlayer := player.DarkPlayer
    disksFlipped := []
    windowSize := ⟨0, 0⟩
    availablePoints := getAvailablePoints (newGrid r) player.DarkPlayer r
    rules := r
    playerMode := pm }

/-- Go's `initialModel`. -/
def initialModel : model := createInitialModel rules.OthelloRules playerMode.OnePlayer

/-- Go's `flipSelectedPoint`: place the current player's disk at the selected
point. -/
def flipSelectedPoint (m : model) : model :=
  { m with grid := m.grid.set m.selectedPoint m.currentPlayer }

/-- Go's `takeTurn`: if the selected point is available, place the disk,
compute and apply the flips, record them, and move to `PointConfirmation`;
otherwise do nothing. -/
def takeTurn (m : model) : model :=
  if m.selectedPoint ∈ m.availablePoints then
    let m1 := flipSelectedPoint m
    let pointsToFlip := getPointsToFlip m1.grid m1.selectedPoint m1.currentPlayer
    { m1 with
      grid := flip m1.grid pointsToFlip m1.currentPlayer
      disksFlipped := pointsToFlip
      view := view.PointConfirmation }
  else m

/-- Go's `computeBestPoint`: greedy scan of `availablePoints` keeping the
first point whose flip count strictly exceeds the maximum so far (which
starts at `-1`; `bestPoint` starts as the zero value). -/
def computeBestPoint (m : model) : vector2d :=
  (m.availablePoints.foldl
    (fun acc p =>
      let flippedPointsCount := (getPointsToFlip m.grid p m.currentPlayer).length
      if (flippedPointsCount : Int) > acc.2 then (p, (flippedPointsCount : Int)) else acc)
    ((⟨0, 0⟩ : vector2d), (-1 : Int))).1

/-- The `PointConfirmation` case of Go's `Update`: toggle the current player,
recompute both players' available points, then decide between game over,
forced pass, and the next point selection (auto-placing for the computer). -/
def pointConfirmationStep (m : model) : model :=
  let newPlayer := toggleCurrentPlayer m.currentPlayer
  let availableDark := getAvailablePoints m.grid player.DarkPlayer m.rules
  let availableLight := getAvailablePoints m.grid player.LightPlayer m.rules
  let availableFor : player → List vector2d := fun p =>
    if p = player.DarkPlayer then availableDark
    else if p = player.LightPlayer then availableLight
    else []
  let m1 := { m with currentPlayer := newPlayer, availablePoints := availableFor newPlayer }
  if ¬ 0 < availableDark.length ∧ ¬ 0 < availableLight.length then
    { m1 with view := view.GameOverView }
  else if ¬ 0 < (availableFor newPlayer).length then
    if m.rules = rules.ReversiRules then { m1 with view := view.GameOverView }
    else { m1 with view := view.PassView }
  else
    if isComputerTurn m1 then
      let m2 := { m1 with view := view.PointSelectionComputer, selectedPoint := computeBestPoint m1 }
      flipSelectedPoint m2
    else { m1 with view := view.PointSelection }

/-- The `PassView` case of Go's `Update`: toggle the current player, return to
`PointSelection`, and recompute that player's available points. -/
def passStep (m : model) : model :=
  let newPlayer := toggleCurrentPlayer m.currentPlayer
  { m with
    currentPlayer := newPlayer
    view := view.PointSelection
    availablePoints := getAvailablePoints m.grid newPlayer m.rules }

/-- Go's `Update`: dispatch on the message and the current view. Returns the
new model and the command (`some cmd.quit` for `tea.Quit`, `none` for `nil`). -/
def update (m : model) (message : msg) : model × Option cmd :=
  match message with
  | msg.key s =>
    match m.view with
    | view.PointSelection =>
      if s = "ctrl+c" ∨ s = "q" then ({ m with view := view.QuitConfirmation }, none)
      else if s = "up" ∨ s = "w" then
        ({ m with selectedPoint :=
            ⟨m.selectedPoint.x, (m.selectedPoint.y - 1 + gridHeight).tmod gridHeight⟩ }, none)
      else if s = "down" ∨ s = "s" then
        ({ m with selectedPoint :=
            ⟨m.selectedPoint.x, (m.selectedPoint.y + 1 + gridHeight).tmod gridHeight⟩ }, none)
      else if s = "left" ∨ s = "a" then
        ({ m with selectedPoint :=
            ⟨(m.selectedPoint.x - 1 + gridWidth).tmod gridWidth, m.selectedPoint.y⟩ }, none)
      else if s = "right" ∨ s = "d" then
        ({ m with selectedPoint :=
            ⟨(m.selectedPoint.x + 1 + gridWidth).tmod gridWidth, m.selectedPoint.y⟩ }, none)
      else if s = "enter" ∨ s = " " then (takeTurn m, none)
      else (m, none)
    | view.PointSelectionComputer => (takeTurn m, none)
    | view.PointConfirmation => (pointConfirmationStep m, none)
    | view.TitleView =>
      if s = "r" then (createInitialModel (toggleRules m.rules) m.playerMode, none)
      else if s = "p" then ({ m with playerMode := togglePlayerMode m.playerMode }, none)
      else ({ m with view := view.PointSelection }, none)
    | view.QuitConfirmation =>
      if s = "enter" then (m, some cmd.quit)
      else ({ m with view := view.PointSelection }, none)
    | view.GameOverView =>
      if s = "enter" then (createInitialModel m.rules m.playerMode, none)
      else (m, some cmd.quit)
    | view.PassView => (passStep m, none)
  | msg.windowSize size => ({ m with windowSize := size }, none)

/-- Go's `computeScores`: for each player, the number of non-blank cells of
that player's colour (a map with missing keys read as 0). -/
def computeScores (g : grid) (p : player) : Nat :=
  ((List.finRange 8).flatMap fun i => (List.finRange 8).map fun j => g i j).countP fun cell =>
    decide (cell ≠ player.Blank) && decide (cell = p)

/-! ## Derived and specification-side definitions -/

/-- The cells of a grid in row-major order (the traversal order of
`computeScores`). -/
def allCells (g : grid) : List player :=
  (List.finRange 8).flatMap fun i => (List.finRange 8).map fun j => g i j

/-- The total score of both players, whose relation to the number of occupied
cells the specification claims. -/
def sumScores (g : grid) : Nat :=
  computeScores g player.DarkPlayer + computeScores g player.LightPlayer

/-- All 64 cell indices in row-major order. -/
def allPoints : List (Fin 8 × Fin 8) :=
  (List.finRange 8).flatMap fun i => (List.finRange 8).map fun j => (i, j)

/-- The opponent of an acting player, from the specification's wording
("opponent-owned cells"). -/
def specOpponent : player → player
  | player.DarkPlayer => player.LightPlayer
  | player.LightPlayer => player.DarkPlayer
  | player.Blank => player.Blank

/-- The point `n` steps from `point` in direction `d`. -/
def rayPoint (point d : vector2d) (n : Nat) : vector2d :=
  ⟨point.x + (n : Int) * d.x, point.y + (n : Int) * d.y⟩

/-- Specification-side capture condition in one direction `d`, from the
claim's words: `q` lies on the run of opponent-owned cells that starts
immediately adjacent to the placement point in direction `d` and is
terminated by a cell owned by the acting player before any empty cell or
board edge. -/
def specCapturedInDir (g : grid) (point : vector2d) (p : player) (d q : vector2d) : Prop :=
  ∃ k m : Nat, 1 ≤ k ∧ k < m ∧ q = rayPoint point d k ∧
    (∀ j, 1 ≤ j → j < m →
      isPointInsideGrid (rayPoint point d j) = true ∧
      grid.get g (rayPoint point d j) = specOpponent p) ∧
    isPointInsideGrid (rayPoint point d m) = true ∧
    grid.get g (rayPoint point d m) = p

/-- Specification-side capture condition: the union over the 8 compass
directions of the directional sandwich captures. -/
def specCaptured (g : grid) (point : vector2d) (p : player) (q : vector2d) : Prop :=
  ∃ d ∈ directions, specCapturedInDir g point p d q

/-- Moore (8-)neighborhood from the specification's wording. -/
def isMooreNeighbor (q a : vector2d) : Prop :=
  q ≠ a ∧ (q.x - a.x).natAbs ≤ 1 ∧ (q.y - a.y).natAbs ≤ 1

/-- Specification-side legality condition (general, non-bootstrap phase):
inside the board, currently empty, a Moore neighbor of at least one
non-empty cell, and the dry-run flip set is non-empty. -/
def specLegal (g : grid) (p : player) (q : vector2d) : Prop :=
  isPointInsideGrid q = true ∧ grid.get g q = player.Blank ∧
  (∃ a : vector2d, grid.get g a ≠ player.Blank ∧ isMooreNeighbor q a) ∧
  getPointsToFlip g q p ≠ []

/-- A step that tears down the current session and starts a new one
(rule-variant toggle on the title screen, or restart after game over). All
other steps stay within the session. -/
def restartStep (m : model) (message : msg) : Prop :=
  (m.view = view.TitleView ∧ message = msg.key "r") ∨
  (m.view = view.GameOverView ∧ message = msg.key "enter")

instance (m : model) (message : msg) : Decidable (restartStep m message) := by
  unfold restartStep
  infer_instance

/-- States reachable by the Bubble Tea event loop from the program's initial
model. -/
inductive Reachable : model → Prop where
  | init : Reachable initialModel
  | step (m : model) (message : msg) : Reachable m → Reachable (update m message).1

/-! ## Concrete boards and models used as witnesses -/

/-- The modern-variant starting board. -/
def othelloGrid : grid := newGrid rules.OthelloRules

/-- The starting model advanced to point selection with the standard opening
move `(2,3)` selected. -/
def openingMoveModel : model :=
  { initialModel with view := view.PointSelection, selectedPoint := ⟨2, 3⟩ }

/-- The starting model advanced to point selection with an illegal point
selected. -/
def illegalSelectModel : model :=
  { initialModel with view := view.PointSelection, selectedPoint := ⟨0, 0⟩ }

/-- The starting model advanced to the placement-confirmation phase. -/
def confirmModel : model :=
  { initialModel with view := view.PointConfirmation }

/-- A board on which the dark player's candidate at `(0,0)` flips 3 disks and
the candidate at `(0,2)` flips 1 disk. -/
def heuristicGrid : grid := fun i j =>
  if i = 0 ∧ (j = 1 ∨ j = 2 ∨ j = 3) then player.LightPlayer
  else if i = 0 ∧ j = 4 then player.DarkPlayer
  else if i = 2 ∧ j = 1 then player.LightPlayer
  else if i = 2 ∧ j = 2 then player.DarkPlayer
  else player.Blank

/-- A model whose legal-point list holds a 3-flip candidate followed by a
1-flip candidate. -/
def heuristicModel : model :=
  { initialModel with
    grid := heuristicGrid
    view := view.PointSelection
    availablePoints := [⟨0, 0⟩, ⟨0, 2⟩] }

/-- A board (dark disks at `(0,0)` and `(2,0)`, light disks at `(1,0)` and the
four center cells, `(3,0)` empty) on which the dark player has no legal move
while the light player does. -/
def passBugGrid : grid := fun i j =>
  if i = 0 ∧ (j = 0 ∨ j = 2) then player.DarkPlayer
  else if (i = 0 ∧ j = 1) ∨ ((i = 3 ∨ i = 4) ∧ (j = 3 ∨ j = 4)) then player.LightPlayer
  else player.Blank

/-- A one-player modern-rules state in the forced-pass phase: the dark
(human) player, to whom the turn just passed, has no legal move on
`passBugGrid` while the light (computer-controlled) player does. -/
def passBugModel : model :=
  { grid := passBugGrid
    selectedPoint := ⟨1, 0⟩
    view := view.PassView
    currentPlayer := player.DarkPlayer
    disksFlipped := [⟨2, 0⟩]
    windowSize := ⟨0, 0⟩
    availablePoints := []
    rules := rules.OthelloRules
    playerMode := playerMode.OnePlayer }

/-! ## Basic lemmas about the board -/

theorem isPointInsideGrid_iff (p : vector2d) :
    isPointInsideGrid p = true ↔ 0 ≤ p.x ∧ p.x < 8 ∧ 0 ≤ p.y ∧ p.y < 8 := by
  simp only [isPointInsideGrid, gridWidth, gridHeight, Bool.and_eq_true, decide_eq_true_eq,
    ge_iff_le]
  tauto

theorem grid.get_mk (g : grid) (i j : Fin 8) :
    grid.get g ⟨((j : Nat) : Int), ((i : Nat) : Int)⟩ = g i j := by
  have h : isPointInsideGrid ⟨((j : Nat) : Int), ((i : Nat) : Int)⟩ = true := by
    rw [isPointInsideGrid_iff]
    have := i.isLt
    have := j.isLt
    dsimp only
    refine ⟨by omega, by omega, by omega, by omega⟩
  rw [grid.get, dif_pos h]
  congr 1

theorem grid.get_outside {p : vector2d} (g : grid) (h : ¬ isPointInsideGrid p = true) :
    grid.get g p = player.Blank := by
  rw [grid.get, dif_neg h]

theorem inside_exists_fin {p : vector2d} (h : isPointInsideGrid p = true) :
    ∃ i j : Fin 8, p = ⟨((j : Nat) : Int), ((i : Nat) : Int)⟩ := by
  rw [isPointInsideGrid_iff] at h
  refine ⟨⟨p.y.toNat, by omega⟩, ⟨p.x.toNat, by omega⟩, ?_⟩
  have hx : ((p.x.toNat : Nat) : Int) = p.x := by omega
  have hy : ((p.y.toNat : Nat) : Int) = p.y := by omega
  cases p
  rw [vector2d.mk.injEq]
  exact ⟨hx.symm, hy.symm⟩

theorem grid.get_ne_blank_inside {g : grid} {p : vector2d}
    (h : grid.get g p ≠ player.Blank) : isPointInsideGrid p = true := by
  by_contra hc
  exact h (grid.get_outside g hc)

theorem grid.set_apply (g : grid) (p : vector2d) (c : player) (i j : Fin 8) :
    (grid.set g p c) i j =
      if ((i : Nat) : Int) = p.y ∧ ((j : Nat) : Int) = p.x then c else g i j := rfl

theorem grid.get_set_ne (g : grid) (p : vector2d) (c : player) {q : vector2d}
    (hq : q ≠ p) : grid.get (grid.set g p c) q = grid.get g q := by
  by_cases h : isPointInsideGrid q = true
  · obtain ⟨i, j, rfl⟩ := inside_exists_fin h
    rw [grid.get_mk, grid.get_mk, grid.set_apply, if_neg]
    intro hc
    exact hq (by cases p; simp at hc ⊢; omega)
  · rw [grid.get_outside _ h, grid.get_outside _ h]

theorem grid.get_set_self (g : grid) {p : vector2d} (c : player)
    (h : isPointInsideGrid p = true) : grid.get (grid.set g p c) p = c := by
  obtain ⟨i, j, rfl⟩ := inside_exists_fin h
  rw [grid.get_mk, grid.set_apply, if_pos]
  simp

theorem grid.set_apply_cases (g : grid) (p : vector2d) (c : player) (i j : Fin 8) :
    (grid.set g p c) i j = c ∨ (grid.set g p c) i j = g i j := by
  rw [grid.set_apply]
  split <;> simp

/-! ## Characterization of the directional flip walk -/

theorem rayPoint_zero (point d : vector2d) : rayPoint point d 0 = point := by
  cases point
  simp [rayPoint]

theorem rayPoint_succ (point d : vector2d) (n : Nat) :
    rayPoint point d (n + 1) =
      ⟨(rayPoint point d n).x + d.x, (rayPoint point d n).y + d.y⟩ := by
  rw [rayPoint, rayPoint, vector2d.mk.injEq]
  dsimp only
  constructor <;> push_cast <;> ring

theorem flipWalk_success (g : grid) (cp : player) (d point : vector2d) :
    ∀ fuel t, ((flipWalk g cp d fuel (rayPoint point d t)).2 = true) ↔
      ∃ m, t < m ∧ m ≤ t + fuel ∧
        (∀ j, t < j → j < m → isPointInsideGrid (rayPoint point d j) = true ∧
          grid.get g (rayPoint point d j) ≠ player.Blank ∧
          grid.get g (rayPoint point d j) ≠ cp) ∧
        isPointInsideGrid (rayPoint point d m) = true ∧
        grid.get g (rayPoint point d m) = cp := by
  intro fuel
  induction fuel with
  | zero =>
    intro t
    rw [flipWalk]
    simp only [Bool.false_eq_true, false_iff]
    rintro ⟨m, h1, h2, -⟩
    omega
  | succ fuel ih =>
    intro t
    rw [flipWalk, ← rayPoint_succ]
    by_cases hin : isPointInsideGrid (rayPoint point d (t + 1)) = true
    · rw [if_pos hin]
      by_cases hcont : grid.get g (rayPoint point d (t + 1)) ≠ player.Blank ∧
          grid.get g (rayPoint point d (t + 1)) ≠ cp
      · rw [if_pos hcont]
        dsimp only
        rw [ih (t + 1)]
        constructor
        · rintro ⟨m, h1, h2, hmid, hmin, hmcp⟩
          refine ⟨m, by omega, by omega, ?_, hmin, hmcp⟩
          intro j hj1 hj2
          rcases Nat.eq_or_lt_of_le hj1 with h | h
          · exact h ▸ ⟨hin, hcont.1, hcont.2⟩
          · exact hmid j h hj2
        · rintro ⟨m, h1, h2, hmid, hmin, hmcp⟩
          have hm1 : t + 1 < m := by
            rcases Nat.eq_or_lt_of_le h1 with h | h
            · exact absurd hmcp (h ▸ hcont.2)
            · exact h
          exact ⟨m, hm1, by omega, fun j hj1 hj2 => hmid j (by omega) hj2, hmin, hmcp⟩
      · rw [if_neg hcont]
        dsimp only
        rw [decide_eq_true_eq]
        constructor
        · intro hcp
          exact ⟨t + 1, by omega, by omega, fun j hj1 hj2 => absurd hj2 (by omega), hin, hcp⟩
        · rintro ⟨m, h1, h2, hmid, hmin, hmcp⟩
          rcases Nat.eq_or_lt_of_le h1 with h | h
          · subst h
            exact hmcp
          · exact absurd ⟨(hmid (t + 1) (by omega) h).2.1, (hmid (t + 1) (by omega) h).2.2⟩ hcont
    · rw [if_neg hin]
      simp only [Bool.false_eq_true, false_iff]
      rintro ⟨m, h1, h2, hmid, hmin, hmcp⟩
      rcases Nat.eq_or_lt_of_le h1 with h | h
      · subst h
        exact hin hmin
      · exact hin (hmid (t + 1) (by omega) h).1

theorem flipWalk_mem (g : grid) (cp : player) (d point : vector2d) :
    ∀ fuel t q, (q ∈ (flipWalk g cp d fuel (rayPoint point d t)).1) ↔
      ∃ k, t < k ∧ k ≤ t + fuel ∧ q = rayPoint point d k ∧
        ∀ j, t < j → j ≤ k → isPointInsideGrid (rayPoint point d j) = true ∧
          grid.get g (rayPoint point d j) ≠ player.Blank ∧
          grid.get g (rayPoint point d j) ≠ cp := by
  intro fuel
  induction fuel with
  | zero =>
    intro t q
    rw [flipWalk]
    simp only [List.not_mem_nil, false_iff]
    rintro ⟨k, h1, h2, -⟩
    omega
  | succ fuel ih =>
    intro t q
    rw [flipWalk, ← rayPoint_succ]
    by_cases hin : isPointInsideGrid (rayPoint point d (t + 1)) = true
    · rw [if_pos hin]
      by_cases hcont : grid.get g (rayPoint point d (t + 1)) ≠ player.Blank ∧
          grid.get g (rayPoint point d (t + 1)) ≠ cp
      · rw [if_pos hcont]
        dsimp only
        rw [List.mem_cons, ih (t + 1)]
        constructor
        · rintro (rfl | ⟨k, h1, h2, rfl, hpre⟩)
          · refine ⟨t + 1, by omega, by omega, rfl, ?_⟩
            intro j hj1 hj2
            have : j = t + 1 := by omega
            exact this ▸ ⟨hin, hcont.1, hcont.2⟩
          · refine ⟨k, by omega, by omega, rfl, ?_⟩
            intro j hj1 hj2
            rcases Nat.eq_or_lt_of_le hj1 with h | h
            · exact h ▸ ⟨hin, hcont.1, hcont.2⟩
            · exact hpre j h hj2
        · rintro ⟨k, h1, h2, rfl, hpre⟩
          rcases Nat.eq_or_lt_of_le h1 with h | h
          · exact Or.inl (by rw [← h])
          · exact Or.inr ⟨k, h, by omega, rfl, fun j hj1 hj2 => hpre j (by omega) hj2⟩
      · rw [if_neg hcont]
        simp only [List.not_mem_nil, false_iff]
        rintro ⟨k, h1, h2, -, hpre⟩
        exact hcont ⟨(hpre (t + 1) (by omega) h1).2.1, (hpre (t + 1) (by omega) h1).2.2⟩
    · rw [if_neg hin]
      simp only [List.not_mem_nil, false_iff]
      rintro ⟨k, h1, h2, -, hpre⟩
      exact hin (hpre (t + 1) (by omega) h1).1

theorem dir_mem_bound {d : vector2d} (hd : d ∈ directions) {point : vector2d} {m : Nat}
    (hp : isPointInsideGrid point = true)
    (hm : isPointInsideGrid (rayPoint point d m) = true) : m ≤ 8 := by
  rw [isPointInsideGrid_iff] at hp hm
  fin_cases hd <;> (simp only [rayPoint, mul_one, mul_zero, mul_neg_one] at hm; omega)

theorem getPointsToFlip_mem (g : grid) (point : vector2d) (cp : player)
    (hin : isPointInsideGrid point = true) (q : vector2d) :
    q ∈ getPointsToFlip g point cp ↔
      ∃ d ∈ directions, ∃ k m : Nat, 1 ≤ k ∧ k < m ∧ q = rayPoint point d k ∧
        (∀ j, 1 ≤ j → j < m → isPointInsideGrid (rayPoint point d j) = true ∧
          grid.get g (rayPoint point d j) ≠ player.Blank ∧
          grid.get g (rayPoint point d j) ≠ cp) ∧
        isPointInsideGrid (rayPoint point d m) = true ∧
        grid.get g (rayPoint point d m) = cp := by
  rw [getPointsToFlip]
  simp only [List.mem_flatten, List.mem_map, hin, if_true]
  constructor
  · rintro ⟨l, ⟨d, hd, rfl⟩, hq⟩
    refine ⟨d, hd, ?_⟩
    rcases hw : (flipWalk g cp d walkFuel point).2 with h | h
    · rw [hw] at hq
      simp at hq
    · rw [hw] at hq
      simp only [if_true] at hq
      have hq' := hq
      rw [show point = rayPoint point d 0 from (rayPoint_zero point d).symm] at hq' hw
      rw [flipWalk_mem g cp d point walkFuel 0 q] at hq'
      rw [flipWalk_success g cp d point walkFuel 0] at hw
      obtain ⟨k, hk1, hk2, rfl, hpre⟩ := hq'
      obtain ⟨m, hm1, hm2, hmid, hmin, hmcp⟩ := hw
      have hkm : k < m := by
        by_contra hc
        exact (hpre m hm1 (by omega)).2.2 hmcp
      exact ⟨k, m, hk1, hkm, rfl, hmid, hmin, hmcp⟩
  · rintro ⟨d, hd, k, m, hk1, hkm, rfl, hmid, hmin, hmcp⟩
    have hm8 : m ≤ 8 := dir_mem_bound hd hin hmin
    have hsucc : (flipWalk g cp d walkFuel point).2 = true := by
      have hs := flipWalk_success g cp d point walkFuel 0
      rw [rayPoint_zero] at hs
      exact hs.mpr ⟨m, by omega, by rw [walkFuel]; omega,
        fun j hj1 hj2 => hmid j hj1 hj2, hmin, hmcp⟩
    refine ⟨_, ⟨d, hd, rfl⟩, ?_⟩
    have hmem := flipWalk_mem g cp d point walkFuel 0 (rayPoint point d k)
    rw [rayPoint_zero] at hmem
    rw [hsucc, if_pos rfl]
    exact hmem.mpr ⟨k, by omega, by rw [walkFuel]; omega, rfl,
      fun j hj1 hj2 => hmid j hj1 (by omega)⟩

theorem ne_blank_ne_iff {p : player} (hp : p ≠ player.Blank) (c : player) :
    (c ≠ player.Blank ∧ c ≠ p) ↔ c = specOpponent p := by
  cases p <;> cases c <;> simp [specOpponent] <;> exact hp rfl

/-- C1: for every board, every placement point on the board, and every acting
player, the flip resolver returns, as a set, exactly the union over the 8
compass directions of the runs of opponent-owned cells that start immediately
adjacent to the placement point in that direction and are terminated by a
cell of the acting player before any empty cell or board edge. -/
theorem flip_resolver_computes_directional_sandwich (g : grid) (point : vector2d)
    (p : player) (hp : p ≠ player.Blank) (hin : isPointInsideGrid point = true)
    (q : vector2d) : q ∈ getPointsToFlip g point p ↔ specCaptured g point p q := by
  rw [getPointsToFlip_mem g point p hin q, specCaptured]
  apply exists_congr
  intro d
  apply and_congr_right
  intro _
  rw [specCapturedInDir]
  constructor
  · rintro ⟨k, m, h1, h2, h3, hmid, hmin, hmcp⟩
    exact ⟨k, m, h1, h2, h3,
      fun j hj1 hj2 => ⟨(hmid j hj1 hj2).1,
        (ne_blank_ne_iff hp _).mp ⟨(hmid j hj1 hj2).2.1, (hmid j hj1 hj2).2.2⟩⟩,
      hmin, hmcp⟩
  · rintro ⟨k, m, h1, h2, h3, hmid, hmin, hmcp⟩
    exact ⟨k, m, h1, h2, h3,
      fun j hj1 hj2 => ⟨(hmid j hj1 hj2).1,
        ((ne_blank_ne_iff hp _).mpr (hmid j hj1 hj2).2).1,
        ((ne_blank_ne_iff hp _).mpr (hmid j hj1 hj2).2).2⟩,
      hmin, hmcp⟩

theorem flip_resolver_sandwich_witness :
    specCaptured othelloGrid ⟨2, 3⟩ player.DarkPlayer ⟨3, 3⟩ :=
  (flip_resolver_computes_directional_sandwich othelloGrid ⟨2, 3⟩ player.DarkPlayer
    (by decide) (by decide) ⟨3, 3⟩).mp (by decide)

/-! ## The flip walk never reads the origin cell -/

theorem rayPoint_add (q d : vector2d) (a b : Nat) :
    rayPoint (rayPoint q d a) d b = rayPoint q d (a + b) := by
  rw [rayPoint, rayPoint, rayPoint, vector2d.mk.injEq]
  dsimp only
  constructor <;> push_cast <;> ring

theorem rayPoint_ne_of_dir {d : vector2d} (hd : d ∈ directions) (p0 : vector2d)
    {j : Nat} (hj : 1 ≤ j) : rayPoint p0 d j ≠ p0 := by
  intro hc
  rw [rayPoint] at hc
  cases p0
  rw [vector2d.mk.injEq] at hc
  fin_cases hd <;>
    (simp only [mul_one, mul_zero, mul_neg_one] at hc; omega)

theorem flipWalk_congr (g1 g2 : grid) (cp : player) (d p0 : vector2d)
    (hg : ∀ z : vector2d, z ≠ p0 → grid.get g1 z = grid.get g2 z) :
    ∀ fuel q, (∀ j : Nat, 1 ≤ j → rayPoint q d j ≠ p0) →
      flipWalk g1 cp d fuel q = flipWalk g2 cp d fuel q := by
  intro fuel
  induction fuel with
  | zero => intro q _; rfl
  | succ fuel ih =>
    intro q hq
    have h1 : (⟨q.x + d.x, q.y + d.y⟩ : vector2d) = rayPoint q d 1 := by
      rw [rayPoint, vector2d.mk.injEq]
      constructor <;> push_cast <;> ring
    have he : grid.get g1 ⟨q.x + d.x, q.y + d.y⟩ = grid.get g2 ⟨q.x + d.x, q.y + d.y⟩ := by
      rw [h1]
      exact hg _ (hq 1 le_rfl)
    have hr : flipWalk g1 cp d fuel ⟨q.x + d.x, q.y + d.y⟩ =
        flipWalk g2 cp d fuel ⟨q.x + d.x, q.y + d.y⟩ := by
      rw [h1]
      apply ih
      intro j hj
      rw [rayPoint_add]
      exact hq (1 + j) (by omega)
    rw [flipWalk, flipWalk, he, hr]

/-- C10: the flip computation never inspects the cell at the placement point
itself: two boards that agree everywhere except possibly at the placement
point yield identical flip lists (hence the dry-run flip set computed while
the origin is still empty equals the one computed after the mover's disk has
been written there). -/
theorem flip_resolver_ignores_origin_cell (g1 g2 : grid) (p0 : vector2d) (cp : player)
    (hg : ∀ z : vector2d, z ≠ p0 → grid.get g1 z = grid.get g2 z) :
    getPointsToFlip g1 p0 cp = getPointsToFlip g2 p0 cp := by
  rw [getPointsToFlip, getPointsToFlip]
  congr 1
  apply List.map_congr_left
  intro d hd
  by_cases hin : isPointInsideGrid p0 = true
  · simp only [hin, if_true]
    rw [flipWalk_congr g1 g2 cp d p0 hg walkFuel p0
      (fun j hj => rayPoint_ne_of_dir hd p0 hj)]
  · rw [if_neg hin, if_neg hin]

theorem flip_resolver_ignores_origin_witness :
    getPointsToFlip (grid.set othelloGrid ⟨2, 3⟩ player.DarkPlayer) ⟨2, 3⟩ player.DarkPlayer =
      getPointsToFlip othelloGrid ⟨2, 3⟩ player.DarkPlayer :=
  flip_resolver_ignores_origin_cell _ _ ⟨2, 3⟩ player.DarkPlayer
    (fun _z hz => grid.get_set_ne othelloGrid ⟨2, 3⟩ player.DarkPlayer hz)

/-! ## Legal-point enumeration -/

theorem getAvailablePoints_bootstrap (g : grid) (p : player)
    (hcount : (getNonBlankPoints g).length < 4) :
    getAvailablePoints g p rules.ReversiRules =
      ([⟨3, 3⟩, ⟨4, 4⟩, ⟨3, 4⟩, ⟨4, 3⟩] : List vector2d).filter fun q =>
        isPointInsideGrid q && decide (grid.get g q = player.Blank) := by
  rw [getAvailablePoints, if_pos ⟨rfl, hcount⟩]

theorem getAvailablePoints_general (g : grid) (p : player) (r : rules)
    (h : ¬ (r = rules.ReversiRules ∧ (getNonBlankPoints g).length < 4)) :
    getAvailablePoints g p r =
      ((getNonBlankPoints g).flatMap fun nonBlankPoint =>
        neighborOffsets.map fun o =>
          (⟨nonBlankPoint.x + o.x, nonBlankPoint.y + o.y⟩ : vector2d)).dedup.filter
        fun neighbor =>
          isPointInsideGrid neighbor && decide (grid.get g neighbor = player.Blank) &&
            decide (0 < (getPointsToFlip g neighbor p).length) := by
  rw [getAvailablePoints, if_neg h]

theorem mem_getNonBlankPoints (g : grid) (q : vector2d) :
    q ∈ getNonBlankPoints g ↔ isPointInsideGrid q = true ∧ grid.get g q ≠ player.Blank := by
  rw [getNonBlankPoints, List.mem_flatMap]
  constructor
  · rintro ⟨i, -, hq⟩
    rw [List.mem_map] at hq
    obtain ⟨j, hj, rfl⟩ := hq
    rw [List.mem_filter, decide_eq_true_eq] at hj
    have hi := i.isLt
    have hj8 := j.isLt
    refine ⟨?_, by rw [grid.get_mk]; exact hj.2⟩
    rw [isPointInsideGrid_iff]
    dsimp only
    refine ⟨by omega, by omega, by omega, by omega⟩
  · rintro ⟨hin, hne⟩
    obtain ⟨i, j, rfl⟩ := inside_exists_fin hin
    refine ⟨i, List.mem_finRange i, ?_⟩
    rw [List.mem_map]
    refine ⟨j, ?_, rfl⟩
    rw [List.mem_filter, decide_eq_true_eq]
    exact ⟨List.mem_finRange j, by rwa [grid.get_mk] at hne⟩

theorem mem_neighborOffsets_iff (o : vector2d) :
    o ∈ neighborOffsets ↔ o ≠ ⟨0, 0⟩ ∧ o.x.natAbs ≤ 1 ∧ o.y.natAbs ≤ 1 := by
  constructor
  · intro h
    fin_cases h <;> refine ⟨by decide, by decide, by decide⟩
  · rintro ⟨h0, hx, hy⟩
    obtain ⟨x, y⟩ := o
    dsimp only at hx hy
    have hx9 : x = -1 ∨ x = 0 ∨ x = 1 := by omega
    have hy9 : y = -1 ∨ y = 0 ∨ y = 1 := by omega
    rcases hx9 with rfl | rfl | rfl <;> rcases hy9 with rfl | rfl | rfl <;>
      first
        | exact absurd rfl h0
        | decide

/-- C4: under the historical variant with fewer than 4 disks on the board,
the legal points are exactly the currently empty subset of the four center
cells, for every player and independently of any flip potential. -/
theorem reversi_bootstrap_legal_points (g : grid) (p : player)
    (hcount : (getNonBlankPoints g).length < 4) :
    (∀ q : vector2d, q ∈ getAvailablePoints g p rules.ReversiRules ↔
      (q = ⟨3, 3⟩ ∨ q = ⟨4, 4⟩ ∨ q = ⟨3, 4⟩ ∨ q = ⟨4, 3⟩) ∧ grid.get g q = player.Blank) ∧
    ∀ p2 : player, getAvailablePoints g p rules.ReversiRules =
      getAvailablePoints g p2 rules.ReversiRules := by
  constructor
  · intro q
    rw [getAvailablePoints_bootstrap g p hcount, List.mem_filter]
    simp only [List.mem_cons, List.not_mem_nil, or_false, Bool.and_eq_true, decide_eq_true_eq]
    constructor
    · rintro ⟨hq, -, hblank⟩
      exact ⟨hq, hblank⟩
    · rintro ⟨hq, hblank⟩
      refine ⟨hq, ?_, hblank⟩
      rcases hq with rfl | rfl | rfl | rfl <;> decide
  · intro p2
    rw [getAvailablePoints_bootstrap g p hcount, getAvailablePoints_bootstrap g p2 hcount]

theorem reversi_bootstrap_witness :
    ((∀ q : vector2d,
        q ∈ getAvailablePoints (newGrid rules.ReversiRules) player.DarkPlayer
            rules.ReversiRules ↔
          (q = ⟨3, 3⟩ ∨ q = ⟨4, 4⟩ ∨ q = ⟨3, 4⟩ ∨ q = ⟨4, 3⟩) ∧
            grid.get (newGrid rules.ReversiRules) q = player.Blank) ∧
      ∀ p2 : player,
        getAvailablePoints (newGrid rules.ReversiRules) player.DarkPlayer rules.ReversiRules =
          getAvailablePoints (newGrid rules.ReversiRules) p2 rules.ReversiRules) :=
  reversi_bootstrap_legal_points (newGrid rules.ReversiRules) player.DarkPlayer (by decide)

/-- C2: outside the historical bootstrap phase, the legal points are, as a
duplicate-free set, exactly the in-bounds empty Moore neighbors of occupied
cells whose dry-run flip set is non-empty. -/
theorem legal_points_are_flipping_moore_neighbors (g : grid) (p : player) (r : rules)
    (hvar : r = rules.OthelloRules ∨
      (r = rules.ReversiRules ∧ 4 ≤ (getNonBlankPoints g).length)) :
    (getAvailablePoints g p r).Nodup ∧
    ∀ q : vector2d, q ∈ getAvailablePoints g p r ↔ specLegal g p q := by
  have h : ¬ (r = rules.ReversiRules ∧ (getNonBlankPoints g).length < 4) := by
    rcases hvar with rfl | ⟨rfl, h4⟩
    · rintro ⟨h, -⟩
      cases h
    · rintro ⟨-, hlt⟩
      omega
  rw [getAvailablePoints_general g p r h]
  constructor
  · exact (List.nodup_dedup _).filter _
  · intro q
    rw [List.mem_filter, List.mem_dedup, specLegal]
    simp only [List.mem_flatMap, List.mem_map, Bool.and_eq_true, decide_eq_true_eq]
    constructor
    · rintro ⟨⟨a, ha, o, ho, rfl⟩, ⟨hins, hblank⟩, hflip⟩
      rw [mem_getNonBlankPoints] at ha
      rw [mem_neighborOffsets_iff] at ho
      refine ⟨hins, hblank, ⟨a, ha.2, ?_, ?_, ?_⟩, ?_⟩
      · intro hc
        apply ho.1
        obtain ⟨ax, ay⟩ := a
        obtain ⟨ox, oy⟩ := o
        rw [vector2d.mk.injEq] at hc ⊢
        dsimp only at hc ⊢
        omega
      · obtain ⟨ax, ay⟩ := a
        obtain ⟨ox, oy⟩ := o
        dsimp only at ho ⊢
        omega
      · obtain ⟨ax, ay⟩ := a
        obtain ⟨ox, oy⟩ := o
        dsimp only at ho ⊢
        omega
      · rwa [← List.length_pos_iff_ne_nil]
    · rintro ⟨hins, hblank, ⟨a, hane, hmoore⟩, hflip⟩
      refine ⟨⟨a, ?_, ⟨q.x - a.x, q.y - a.y⟩, ?_, ?_⟩, ⟨hins, hblank⟩, ?_⟩
      · rw [mem_getNonBlankPoints]
        exact ⟨grid.get_ne_blank_inside hane, hane⟩
      · rw [mem_neighborOffsets_iff]
        refine ⟨?_, by dsimp only; exact hmoore.2.1, by dsimp only; exact hmoore.2.2⟩
        intro hc
        apply hmoore.1
        obtain ⟨ax, ay⟩ := a
        obtain ⟨qx, qy⟩ := q
        rw [vector2d.mk.injEq] at hc ⊢
        dsimp only at hc ⊢
        omega
      · obtain ⟨ax, ay⟩ := a
        obtain ⟨qx, qy⟩ := q
        rw [vector2d.mk.injEq]
        dsimp only
        omega
      · rwa [List.length_pos_iff_ne_nil]

theorem legal_points_witness :
    (getAvailablePoints othelloGrid player.DarkPlayer rules.OthelloRules).Nodup ∧
    ∀ q : vector2d,
      q ∈ getAvailablePoints othelloGrid player.DarkPlayer rules.OthelloRules ↔
        specLegal othelloGrid player.DarkPlayer q :=
  legal_points_are_flipping_moore_neighbors othelloGrid player.DarkPlayer rules.OthelloRules
    (Or.inl rfl)

/-! ## The greedy move selector -/

theorem bestFold_spec (g : grid) (cp : player) :
    ∀ (l : List vector2d) (b0 : vector2d) (c0 : Int),
      ∃ best : vector2d, ∃ c : Int,
        (l.foldl
          (fun acc p =>
            if ((getPointsToFlip g p cp).length : Int) > acc.2 then
              (p, ((getPointsToFlip g p cp).length : Int))
            else acc)
          (b0, c0)) = (best, c) ∧
        ((best = b0 ∧ c = c0 ∧ ∀ q ∈ l, ((getPointsToFlip g q cp).length : Int) ≤ c0) ∨
          (∃ l1 l2, l = l1 ++ best :: l2 ∧
            c = ((getPointsToFlip g best cp).length : Int) ∧ c0 < c ∧
            (∀ q ∈ l1, ((getPointsToFlip g q cp).length : Int) < c) ∧
            (∀ q ∈ l2, ((getPointsToFlip g q cp).length : Int) ≤ c))) := by
  intro l
  induction l with
  | nil =>
    intro b0 c0
    exact ⟨b0, c0, rfl, Or.inl ⟨rfl, rfl, by simp⟩⟩
  | cons p t ih =>
    intro b0 c0
    rw [List.foldl_cons]
    dsimp only
    by_cases hp : ((getPointsToFlip g p cp).length : Int) > c0
    · rw [if_pos hp]
      obtain ⟨best, c, heq, hcase⟩ := ih p ((getPointsToFlip g p cp).length : Int)
      refine ⟨best, c, heq, Or.inr ?_⟩
      rcases hcase with ⟨rfl, rfl, hall⟩ | ⟨l1, l2, ht, hc, hgt, hl1, hl2⟩
      · exact ⟨[], t, rfl, rfl, hp, by simp, hall⟩
      · refine ⟨p :: l1, l2, by rw [ht]; rfl, hc, by omega, ?_, hl2⟩
        intro q hq
        rcases List.mem_cons.mp hq with rfl | hq2
        · omega
        · exact hl1 q hq2
    · rw [if_neg hp]
      obtain ⟨best, c, heq, hcase⟩ := ih b0 c0
      refine ⟨best, c, heq, ?_⟩
      rcases hcase with ⟨rfl, rfl, hall⟩ | ⟨l1, l2, ht, hc, hgt, hl1, hl2⟩
      · refine Or.inl ⟨rfl, rfl, ?_⟩
        intro q hq
        rcases List.mem_cons.mp hq with rfl | hq2
        · omega
        · exact hall q hq2
      · refine Or.inr ⟨p :: l1, l2, by rw [ht]; rfl, hc, hgt, ?_, hl2⟩
        intro q hq
        rcases List.mem_cons.mp hq with rfl | hq2
        · omega
        · exact hl1 q hq2

/-- C5: for every non-empty legal-point list the greedy selector returns an
element of the list whose dry-run flip count is maximal, and it is the
first-encountered maximum in the list's enumeration order. -/
theorem heuristic_selects_first_max_flip_candidate (m : model)
    (h : m.availablePoints ≠ []) :
    computeBestPoint m ∈ m.availablePoints ∧
    (∀ q ∈ m.availablePoints,
      (getPointsToFlip m.grid q m.currentPlayer).length ≤
        (getPointsToFlip m.grid (computeBestPoint m) m.currentPlayer).length) ∧
    ∃ l1 l2, m.availablePoints = l1 ++ computeBestPoint m :: l2 ∧
      ∀ q ∈ l1, (getPointsToFlip m.grid q m.currentPlayer).length <
        (getPointsToFlip m.grid (computeBestPoint m) m.currentPlayer).length := by
  obtain ⟨best, c, heq, hcase⟩ :=
    bestFold_spec m.grid m.currentPlayer m.availablePoints ⟨0, 0⟩ (-1)
  have hdef : computeBestPoint m = best := congrArg Prod.fst heq
  rcases hcase with ⟨-, rfl, hall⟩ | ⟨l1, l2, hsplit, hc, -, hl1, hl2⟩
  · obtain ⟨q, hq⟩ := List.exists_mem_of_ne_nil m.availablePoints h
    have hle := hall q hq
    omega
  · rw [hdef]
    refine ⟨by rw [hsplit]; exact List.mem_append.mpr (Or.inr (List.mem_cons_self _ _)),
      ?_, l1, l2, hsplit, ?_⟩
    · intro q hq
      rw [hsplit] at hq
      rcases List.mem_append.mp hq with hq1 | hq2
      · have := hl1 q hq1
        omega
      · rcases List.mem_cons.mp hq2 with rfl | hq3
        · omega
        · have := hl2 q hq3
          omega
    · intro q hq
      have := hl1 q hq
      omega

theorem heuristic_witness :
    (computeBestPoint heuristicModel = ⟨0, 0⟩ ∧
      (getPointsToFlip heuristicModel.grid ⟨0, 0⟩ heuristicModel.currentPlayer).length = 3 ∧
      (getPointsToFlip heuristicModel.grid ⟨0, 2⟩ heuristicModel.currentPlayer).length = 1) ∧
    (computeBestPoint heuristicModel ∈ heuristicModel.availablePoints ∧
      (∀ q ∈ heuristicModel.availablePoints,
        (getPointsToFlip heuristicModel.grid q heuristicModel.currentPlayer).length ≤
          (getPointsToFlip heuristicModel.grid (computeBestPoint heuristicModel)
            heuristicModel.currentPlayer).length) ∧
      ∃ l1 l2, heuristicModel.availablePoints = l1 ++ computeBestPoint heuristicModel :: l2 ∧
        ∀ q ∈ l1, (getPointsToFlip heuristicModel.grid q heuristicModel.currentPlayer).length <
          (getPointsToFlip heuristicModel.grid (computeBestPoint heuristicModel)
            heuristicModel.currentPlayer).length) :=
  ⟨by decide, heuristic_selects_first_max_flip_candidate heuristicModel (by decide)⟩


/-! ## Counting occupied cells -/

theorem countP_le_of_pointwise {α : Type} (p q : α → Bool) :
    ∀ l : List α, (∀ a ∈ l, p a = true → q a = true) → l.countP p ≤ l.countP q := by
  intro l
  induction l with
  | nil => intro _; rfl
  | cons a t ih =>
    intro h
    rw [List.countP_cons, List.countP_cons]
    have ht := ih fun b hb => h b (List.mem_cons_of_mem a hb)
    by_cases hpa : p a = true
    · rw [if_pos hpa, if_pos (h a (List.mem_cons_self a t) hpa)]
      omega
    · rw [if_neg hpa]
      split <;> omega

theorem countP_eq_of_pointwise {α : Type} (p q : α → Bool) (l : List α)
    (h : ∀ a ∈ l, p a = q a) : l.countP p = l.countP q :=
  Nat.le_antisymm
    (countP_le_of_pointwise p q l fun a ha hp => (h a ha) ▸ hp)
    (countP_le_of_pointwise q p l fun a ha hq => (h a ha) ▸ hq)

theorem countP_succ_of_flip_one {α : Type} (p q : α → Bool) (a0 : α) :
    ∀ l : List α, l.Nodup → a0 ∈ l → p a0 = false → q a0 = true →
      (∀ a ∈ l, a ≠ a0 → p a = q a) → l.countP q = l.countP p + 1 := by
  intro l
  induction l with
  | nil => intro _ h0; cases h0
  | cons b t ih =>
    intro hnd h0 hp hq hrest
    rw [List.countP_cons, List.countP_cons]
    rcases List.mem_cons.mp h0 with rfl | h0t
    · rw [hp, hq, if_pos rfl, if_neg (by simp)]
      have ht : t.countP p = t.countP q := by
        apply countP_eq_of_pointwise
        intro a ha
        exact hrest a (List.mem_cons_of_mem _ ha) fun hc =>
          (List.nodup_cons.mp hnd).1 (hc ▸ ha)
      omega
    · have hb : b ≠ a0 := fun hc => (List.nodup_cons.mp hnd).1 (hc ▸ h0t)
      rw [hrest b (List.mem_cons_self b t) hb]
      have := ih (List.nodup_cons.mp hnd).2 h0t hp hq fun a ha hne =>
        hrest a (List.mem_cons_of_mem _ ha) hne
      omega

theorem countP_flatMap_rows (g : grid) (p : player → Bool) :
    ∀ L : List (Fin 8),
      ((L.flatMap fun i => (List.finRange 8).map (g i)).countP p) =
        ((L.flatMap fun i => (List.finRange 8).map fun j => (i, j)).countP
          fun ij => p (g ij.1 ij.2)) := by
  intro L
  induction L with
  | nil => rfl
  | cons i t ih =>
    rw [List.flatMap_cons, List.flatMap_cons, List.countP_append, List.countP_append, ih,
      List.countP_map, List.countP_map]
    congr 1

theorem allCells_countP_eq (g : grid) (p : player → Bool) :
    (allCells g).countP p = allPoints.countP fun ij => p (g ij.1 ij.2) := by
  rw [allCells, allPoints]
  exact countP_flatMap_rows g p (List.finRange 8)

theorem mem_allPoints (ij : Fin 8 × Fin 8) : ij ∈ allPoints := by
  rw [allPoints, List.mem_flatMap]
  refine ⟨ij.1, List.mem_finRange _, ?_⟩
  rw [List.mem_map]
  exact ⟨ij.2, List.mem_finRange _, rfl⟩

theorem allPoints_nodup : allPoints.Nodup := by decide

theorem length_flatMap_rows (g : grid) :
    ∀ L : List (Fin 8),
      ((L.flatMap fun i =>
        ((List.finRange 8).filter fun j => decide (g i j ≠ player.Blank)).map fun j =>
          (⟨(j.val : Int), (i.val : Int)⟩ : vector2d)).length) =
        ((L.flatMap fun i => (List.finRange 8).map (g i)).countP
          fun c => decide (c ≠ player.Blank)) := by
  intro L
  induction L with
  | nil => rfl
  | cons i t ih =>
    rw [List.flatMap_cons, List.flatMap_cons, List.length_append, List.countP_append, ih,
      List.length_map, List.countP_map]
    congr 1
    rw [← List.countP_eq_length_filter]
    exact countP_eq_of_pointwise _ _ _ fun a _ => rfl

theorem getNonBlankPoints_length_eq (g : grid) :
    (getNonBlankPoints g).length =
      (allCells g).countP fun c => decide (c ≠ player.Blank) := by
  rw [getNonBlankPoints, allCells]
  exact length_flatMap_rows g (List.finRange 8)

theorem countP_player_split (l : List player) :
    (l.countP fun c => decide (c ≠ player.Blank) && decide (c = player.DarkPlayer)) +
      (l.countP fun c => decide (c ≠ player.Blank) && decide (c = player.LightPlayer)) =
      l.countP fun c => decide (c ≠ player.Blank) := by
  induction l with
  | nil => rfl
  | cons a t ih =>
    rw [List.countP_cons, List.countP_cons, List.countP_cons]
    cases a with
    | DarkPlayer =>
      rw [if_pos (by decide), if_neg (by decide), if_pos (by decide)]
      omega
    | LightPlayer =>
      rw [if_neg (by decide), if_pos (by decide), if_pos (by decide)]
      omega
    | Blank =>
      rw [if_neg (by decide), if_neg (by decide), if_neg (by decide)]
      omega

theorem sumScores_eq_countP (g : grid) :
    sumScores g = (allCells g).countP fun c => decide (c ≠ player.Blank) := by
  rw [sumScores]
  rw [show computeScores g player.DarkPlayer =
    (allCells g).countP fun c =>
      decide (c ≠ player.Blank) && decide (c = player.DarkPlayer) from rfl]
  rw [show computeScores g player.LightPlayer =
    (allCells g).countP fun c =>
      decide (c ≠ player.Blank) && decide (c = player.LightPlayer) from rfl]
  exact countP_player_split _

theorem sumScores_eq_nonBlank_length (g : grid) :
    sumScores g = (getNonBlankPoints g).length := by
  rw [sumScores_eq_countP, getNonBlankPoints_length_eq]

theorem sumScores_le_of_pointwise (g g' : grid)
    (h : ∀ i j, g i j ≠ player.Blank → g' i j ≠ player.Blank) :
    sumScores g ≤ sumScores g' := by
  rw [sumScores_eq_countP, sumScores_eq_countP, allCells_countP_eq, allCells_countP_eq]
  apply countP_le_of_pointwise
  intro ij _ hp
  rw [decide_eq_true_eq] at hp ⊢
  exact h ij.1 ij.2 hp

theorem sumScores_eq_of_pointwise (g g' : grid)
    (h : ∀ i j, g i j ≠ player.Blank ↔ g' i j ≠ player.Blank) :
    sumScores g = sumScores g' :=
  Nat.le_antisymm
    (sumScores_le_of_pointwise g g' fun i j => (h i j).mp)
    (sumScores_le_of_pointwise g' g fun i j => (h i j).mpr)

theorem grid.set_apply_fin (g : grid) (i0 j0 : Fin 8) (c : player) (i j : Fin 8) :
    (grid.set g ⟨(j0.val : Int), (i0.val : Int)⟩ c) i j =
      if i = i0 ∧ j = j0 then c else g i j := by
  rw [grid.set_apply]
  apply if_congr _ rfl rfl
  dsimp only
  constructor
  · rintro ⟨h1, h2⟩
    exact ⟨Fin.ext (by omega), Fin.ext (by omega)⟩
  · rintro ⟨rfl, rfl⟩
    exact ⟨rfl, rfl⟩

theorem sumScores_set (g : grid) {p0 : vector2d} (c : player)
    (hin : isPointInsideGrid p0 = true) (hblank : grid.get g p0 = player.Blank)
    (hc : c ≠ player.Blank) :
    sumScores (grid.set g p0 c) = sumScores g + 1 := by
  obtain ⟨i0, j0, rfl⟩ := inside_exists_fin hin
  rw [grid.get_mk] at hblank
  rw [sumScores_eq_countP, sumScores_eq_countP, allCells_countP_eq, allCells_countP_eq]
  apply countP_succ_of_flip_one _ _ (i0, j0) allPoints allPoints_nodup (mem_allPoints _)
  · rw [hblank]
    simp
  · rw [grid.set_apply_fin, if_pos ⟨rfl, rfl⟩]
    simp [hc]
  · intro a _ hne
    rw [grid.set_apply_fin, if_neg]
    intro hc2
    exact hne (Prod.ext hc2.1 hc2.2)

/-! ## Flipped points are occupied -/

theorem flipWalk_mem_get_ne_blank (g : grid) (cp : player) (d : vector2d) :
    ∀ fuel p q, q ∈ (flipWalk g cp d fuel p).1 → grid.get g q ≠ player.Blank := by
  intro fuel
  induction fuel with
  | zero =>
    intro p q h
    rw [flipWalk] at h
    cases h
  | succ fuel ih =>
    intro p q h
    rw [flipWalk] at h
    by_cases hin : isPointInsideGrid ⟨p.x + d.x, p.y + d.y⟩ = true
    · rw [if_pos hin] at h
      by_cases hcont : grid.get g ⟨p.x + d.x, p.y + d.y⟩ ≠ player.Blank ∧
          grid.get g ⟨p.x + d.x, p.y + d.y⟩ ≠ cp
      · rw [if_pos hcont] at h
        dsimp only at h
        rcases List.mem_cons.mp h with rfl | h2
        · exact hcont.1
        · exact ih _ q h2
      · rw [if_neg hcont] at h
        cases h
    · rw [if_neg hin] at h
      cases h

theorem getPointsToFlip_get_ne_blank (g : grid) (p0 : vector2d) (cp : player) :
    ∀ q ∈ getPointsToFlip g p0 cp, grid.get g q ≠ player.Blank := by
  intro q hq
  rw [getPointsToFlip, List.mem_flatten] at hq
  obtain ⟨l, hl, hql⟩ := hq
  rw [List.mem_map] at hl
  obtain ⟨d, -, rfl⟩ := hl
  by_cases hin : isPointInsideGrid p0 = true
  · rw [if_pos hin] at hql
    dsimp only at hql
    by_cases hw : (flipWalk g cp d walkFuel p0).2 = true
    · rw [if_pos hw] at hql
      exact flipWalk_mem_get_ne_blank g cp d walkFuel p0 q hql
    · rw [if_neg hw] at hql
      cases hql
  · rw [if_neg hin] at hql
    cases hql

theorem grid.set_apply_eq_or (g : grid) (q : vector2d) (c : player) (i j : Fin 8) :
    ((grid.set g q c) i j = c ∧ q = ⟨(j.val : Int), (i.val : Int)⟩) ∨
      (grid.set g q c) i j = g i j := by
  rw [grid.set_apply]
  by_cases h : ((i : Nat) : Int) = q.y ∧ ((j : Nat) : Int) = q.x
  · left
    rw [if_pos h]
    refine ⟨rfl, ?_⟩
    cases q
    rw [vector2d.mk.injEq]
    exact ⟨h.2.symm, h.1.symm⟩
  · right
    rw [if_neg h]

theorem flip_ne_blank_iff (cp : player) (hcp : cp ≠ player.Blank) :
    ∀ (pts : List vector2d) (g : grid), (∀ q ∈ pts, grid.get g q ≠ player.Blank) →
      ∀ i j, ((flip g pts cp) i j ≠ player.Blank ↔ g i j ≠ player.Blank) := by
  intro pts
  induction pts with
  | nil =>
    intro g _ i j
    exact Iff.rfl
  | cons q t ih =>
    intro g h i j
    have hpts : ∀ q' ∈ t, (grid.set g q cp).get q' ≠ player.Blank := by
      intro q' hq'
      by_cases hqq : q' = q
      · subst hqq
        rw [grid.get_set_self g cp
          (grid.get_ne_blank_inside (h q' (List.mem_cons_self _ _)))]
        exact hcp
      · rw [grid.get_set_ne g q cp hqq]
        exact h q' (List.mem_cons_of_mem _ hq')
    rw [show flip g (q :: t) cp = flip (grid.set g q cp) t cp from rfl,
      ih (grid.set g q cp) hpts i j]
    rcases grid.set_apply_eq_or g q cp i j with ⟨hc, hq⟩ | hc
    · rw [hc]
      have hg : g i j ≠ player.Blank := by
        have hh := h q (List.mem_cons_self _ _)
        rw [hq, grid.get_mk] at hh
        exact hh
      exact iff_of_true hcp hg
    · rw [hc]

theorem mem_getAvailablePoints_blank {g : grid} {p : player} {r : rules} {q : vector2d}
    (h : q ∈ getAvailablePoints g p r) :
    isPointInsideGrid q = true ∧ grid.get g q = player.Blank := by
  rw [getAvailablePoints] at h
  by_cases hcond : r = rules.ReversiRules ∧ (getNonBlankPoints g).length < 4
  · rw [if_pos hcond, List.mem_filter, Bool.and_eq_true, decide_eq_true_eq] at h
    exact h.2
  · rw [if_neg hcond, List.mem_filter, Bool.and_eq_true, Bool.and_eq_true,
      decide_eq_true_eq] at h
    exact ⟨h.2.1.1, h.2.1.2⟩

theorem takeTurn_sumScores (m : model)
    (hav : m.availablePoints = getAvailablePoints m.grid m.currentPlayer m.rules)
    (hcp : m.currentPlayer ≠ player.Blank)
    (hsel : m.selectedPoint ∈ m.availablePoints) :
    sumScores (takeTurn m).grid = sumScores m.grid + 1 := by
  have hmem := hsel
  rw [hav] at hmem
  have hblank := mem_getAvailablePoints_blank hmem
  rw [takeTurn, if_pos hsel]
  dsimp only [flipSelectedPoint]
  rw [sumScores_eq_of_pointwise _ (grid.set m.grid m.selectedPoint m.currentPlayer)
    (flip_ne_blank_iff m.currentPlayer hcp _ _
      (getPointsToFlip_get_ne_blank _ m.selectedPoint m.currentPlayer))]
  exact sumScores_set m.grid m.currentPlayer hblank.1 hblank.2 hcp

theorem toggleCurrentPlayer_ne_blank (p : player) :
    toggleCurrentPlayer p ≠ player.Blank := by
  rw [toggleCurrentPlayer]
  split <;> simp

theorem toggleCurrentPlayer_cases (p : player) :
    toggleCurrentPlayer p = player.DarkPlayer ∨ toggleCurrentPlayer p = player.LightPlayer := by
  rw [toggleCurrentPlayer]
  split <;> simp

/-! ## The state machine: current-player and grid evolution -/

theorem takeTurn_currentPlayer (m : model) : (takeTurn m).currentPlayer = m.currentPlayer := by
  rw [takeTurn]
  split <;> rfl

theorem pointConfirmationStep_currentPlayer (m : model) :
    (pointConfirmationStep m).currentPlayer = toggleCurrentPlayer m.currentPlayer := by
  rw [pointConfirmationStep]
  dsimp only [flipSelectedPoint]
  split_ifs <;> rfl

theorem passStep_currentPlayer (m : model) :
    (passStep m).currentPlayer = toggleCurrentPlayer m.currentPlayer := rfl

theorem update_currentPlayer (m : model) (message : msg) :
    (update m message).1.currentPlayer = m.currentPlayer ∨
    (update m message).1.currentPlayer = toggleCurrentPlayer m.currentPlayer ∨
    (update m message).1.currentPlayer = player.DarkPlayer := by
  obtain ⟨mg, msel, mv, mcp, mdf, mws, mav, mr, mpm⟩ := m
  rcases message with s | size
  · cases mv <;> dsimp only [update] <;> (try split_ifs) <;>
      first
        | exact Or.inl rfl
        | exact Or.inl (takeTurn_currentPlayer _)
        | exact Or.inr (Or.inl (pointConfirmationStep_currentPlayer _))
        | exact Or.inr (Or.inl (passStep_currentPlayer _))
        | exact Or.inr (Or.inr rfl)
  · exact Or.inl rfl

theorem reachable_currentPlayer_ne_blank {m : model} (h : Reachable m) :
    m.currentPlayer ≠ player.Blank := by
  induction h with
  | init =>
    intro hc
    cases hc
  | step m message _ ih =>
    rcases update_currentPlayer m message with h1 | h1 | h1 <;> rw [h1]
    · exact ih
    · exact toggleCurrentPlayer_ne_blank _
    · intro hc
      cases hc

theorem set_preserves_nonBlank {c : player} (hc : c ≠ player.Blank) (g : grid) (p : vector2d)
    (i j : Fin 8) (h : g i j ≠ player.Blank) : (grid.set g p c) i j ≠ player.Blank := by
  rcases grid.set_apply_cases g p c i j with hh | hh <;> rw [hh]
  exacts [hc, h]

theorem flip_preserves_nonBlank {cp : player} (hcp : cp ≠ player.Blank) :
    ∀ (pts : List vector2d) (g : grid) (i j : Fin 8), g i j ≠ player.Blank →
      (flip g pts cp) i j ≠ player.Blank := by
  intro pts
  induction pts with
  | nil =>
    intro g i j h
    exact h
  | cons q t ih =>
    intro g i j h
    rw [show flip g (q :: t) cp = flip (grid.set g q cp) t cp from rfl]
    exact ih _ i j (set_preserves_nonBlank hcp g q i j h)

theorem takeTurn_preserves_nonBlank (m : model) (hcp : m.currentPlayer ≠ player.Blank)
    (i j : Fin 8) (h : m.grid i j ≠ player.Blank) :
    (takeTurn m).grid i j ≠ player.Blank := by
  rw [takeTurn]
  split
  · dsimp only [flipSelectedPoint]
    exact flip_preserves_nonBlank hcp _ _ i j (set_preserves_nonBlank hcp _ _ i j h)
  · exact h

theorem pointConfirmationStep_preserves_nonBlank (m : model) (i j : Fin 8)
    (h : m.grid i j ≠ player.Blank) :
    (pointConfirmationStep m).grid i j ≠ player.Blank := by
  rw [pointConfirmationStep]
  dsimp only [flipSelectedPoint]
  split_ifs <;>
    first
      | exact h
      | exact set_preserves_nonBlank (toggleCurrentPlayer_ne_blank _) _ _ i j h

theorem update_preserves_nonBlank (m : model) (hcp : m.currentPlayer ≠ player.Blank)
    (message : msg) (hnr : ¬ restartStep m message) :
    ∀ i j, m.grid i j ≠ player.Blank → (update m message).1.grid i j ≠ player.Blank := by
  obtain ⟨mg, msel, mv, mcp, mdf, mws, mav, mr, mpm⟩ := m
  rcases message with s | size
  · cases mv with
    | PointSelection =>
      dsimp only [update]
      split_ifs <;> intro i j h <;>
        first
          | exact h
          | exact takeTurn_preserves_nonBlank _ hcp i j h
    | PointSelectionComputer =>
      dsimp only [update]
      intro i j h
      exact takeTurn_preserves_nonBlank _ hcp i j h
    | PointConfirmation =>
      dsimp only [update]
      intro i j h
      exact pointConfirmationStep_preserves_nonBlank _ i j h
    | TitleView =>
      dsimp only [update]
      split_ifs with h1 h2
      · exact absurd (Or.inl ⟨rfl, by rw [h1]⟩) hnr
      · intro i j h
        exact h
      · intro i j h
        exact h
    | QuitConfirmation =>
      dsimp only [update]
      split_ifs <;> intro i j h <;> exact h
    | GameOverView =>
      dsimp only [update]
      split_ifs with h1
      · exact absurd (Or.inr ⟨rfl, by rw [h1]⟩) hnr
      · intro i j h
        exact h
    | PassView =>
      dsimp only [update]
      intro i j h
      exact h
  · intro i j h
    exact h

theorem pointConfirmationStep_availablePoints (m : model) :
    (pointConfirmationStep m).availablePoints =
      getAvailablePoints m.grid (toggleCurrentPlayer m.currentPlayer) m.rules := by
  rcases toggleCurrentPlayer_cases m.currentPlayer with hc | hc <;>
    (rw [pointConfirmationStep]; dsimp only [flipSelectedPoint]; rw [hc]) <;>
    simp only [eq_self_iff_true, if_true,
      eq_false (by decide : ¬ (player.LightPlayer = player.DarkPlayer)), if_false] <;>
    split_ifs <;> rfl

theorem pointConfirmationStep_view (m : model) :
    (pointConfirmationStep m).view =
      if ¬ 0 < (getAvailablePoints m.grid player.DarkPlayer m.rules).length ∧
          ¬ 0 < (getAvailablePoints m.grid player.LightPlayer m.rules).length then
        view.GameOverView
      else if ¬ 0 < (getAvailablePoints m.grid (toggleCurrentPlayer m.currentPlayer)
          m.rules).length then
        if m.rules = rules.ReversiRules then view.GameOverView else view.PassView
      else if isComputerTurn { m with
          currentPlayer := toggleCurrentPlayer m.currentPlayer,
          availablePoints :=
            getAvailablePoints m.grid (toggleCurrentPlayer m.currentPlayer) m.rules } then
        view.PointSelectionComputer
      else view.PointSelection := by
  rcases toggleCurrentPlayer_cases m.currentPlayer with hc | hc <;>
    (rw [pointConfirmationStep]; dsimp only [flipSelectedPoint]; rw [hc]) <;>
    simp only [eq_self_iff_true, if_true,
      eq_false (by decide : ¬ (player.LightPlayer = player.DarkPlayer)), if_false] <;>
    split_ifs <;> rfl

/-- C3: from the placement-confirmation phase, any key toggles the current
player and installs the recomputed legal points of the new current player;
then: if neither player can move the phase becomes game over; if only the new
current player cannot move it becomes game over under the historical variant
and forced pass under the modern one; otherwise the machine awaits the next
placement (in the ordinary or the computer-controlled selection view). -/
theorem confirmation_step_transitions (m : model) (h : m.view = view.PointConfirmation)
    (s : String) :
    (update m (msg.key s)).1.currentPlayer = toggleCurrentPlayer m.currentPlayer ∧
    (update m (msg.key s)).1.availablePoints =
      getAvailablePoints m.grid (toggleCurrentPlayer m.currentPlayer) m.rules ∧
    ((getAvailablePoints m.grid player.DarkPlayer m.rules = [] ∧
        getAvailablePoints m.grid player.LightPlayer m.rules = []) →
      (update m (msg.key s)).1.view = view.GameOverView) ∧
    (¬ (getAvailablePoints m.grid player.DarkPlayer m.rules = [] ∧
        getAvailablePoints m.grid player.LightPlayer m.rules = []) →
      getAvailablePoints m.grid (toggleCurrentPlayer m.currentPlayer) m.rules = [] →
      (update m (msg.key s)).1.view =
        (if m.rules = rules.ReversiRules then view.GameOverView else view.PassView)) ∧
    (¬ (getAvailablePoints m.grid player.DarkPlayer m.rules = [] ∧
        getAvailablePoints m.grid player.LightPlayer m.rules = []) →
      getAvailablePoints m.grid (toggleCurrentPlayer m.currentPlayer) m.rules ≠ [] →
      ((update m (msg.key s)).1.view = view.PointSelection ∨
        (update m (msg.key s)).1.view = view.PointSelectionComputer)) := by
  have hu : update m (msg.key s) = (pointConfirmationStep m, none) := by
    obtain ⟨mg, msel, mv, mcp, mdf, mws, mav, mr, mpm⟩ := m
    cases h
    rfl
  rw [hu]
  dsimp only
  refine ⟨pointConfirmationStep_currentPlayer m, pointConfirmationStep_availablePoints m,
    ?_, ?_, ?_⟩
  · rintro ⟨hD, hL⟩
    rw [pointConfirmationStep_view,
      if_pos ⟨by rw [hD]; decide, by rw [hL]; decide⟩]
  · intro hne hcur
    have hc1 : ¬ (¬ 0 < (getAvailablePoints m.grid player.DarkPlayer m.rules).length ∧
        ¬ 0 < (getAvailablePoints m.grid player.LightPlayer m.rules).length) := by
      rintro ⟨hcond1, hcond2⟩
      apply hne
      constructor
      · rw [← List.length_eq_zero]
        omega
      · rw [← List.length_eq_zero]
        omega
    have hc2 : ¬ 0 <
        (getAvailablePoints m.grid (toggleCurrentPlayer m.currentPlayer) m.rules).length := by
      rw [hcur]
      decide
    rw [pointConfirmationStep_view, if_neg hc1, if_pos hc2]
  · intro hne hcur
    have hc1 : ¬ (¬ 0 < (getAvailablePoints m.grid player.DarkPlayer m.rules).length ∧
        ¬ 0 < (getAvailablePoints m.grid player.LightPlayer m.rules).length) := by
      rintro ⟨hcond1, hcond2⟩
      apply hne
      constructor
      · rw [← List.length_eq_zero]
        omega
      · rw [← List.length_eq_zero]
        omega
    have hc2 : ¬ ¬ 0 <
        (getAvailablePoints m.grid (toggleCurrentPlayer m.currentPlayer) m.rules).length := by
      rw [not_not, List.length_pos]
      exact hcur
    rw [pointConfirmationStep_view, if_neg hc1, if_neg hc2]
    split_ifs
    · exact Or.inr rfl
    · exact Or.inl rfl

theorem confirmation_step_witness :
    (update confirmModel (msg.key "x")).1.currentPlayer =
        toggleCurrentPlayer confirmModel.currentPlayer ∧
    ((update confirmModel (msg.key "x")).1.view = view.PointSelection ∨
      (update confirmModel (msg.key "x")).1.view = view.PointSelectionComputer) :=
  ⟨(confirmation_step_transitions confirmModel rfl "x").1,
    (confirmation_step_transitions confirmModel rfl "x").2.2.2.2 (by decide) (by decide)⟩

/-- C8: every cell value is one of the three occupancy states, and from every
reachable state, every transition that stays within the session (i.e. is not
a restart) preserves non-emptiness of every cell: once a cell is non-empty it
never returns to empty. -/
theorem cells_never_return_to_empty :
    (∀ c : player, c = player.Blank ∨ c = player.DarkPlayer ∨ c = player.LightPlayer) ∧
    ∀ m : model, Reachable m → ∀ message : msg, ¬ restartStep m message →
      ∀ i j, m.grid i j ≠ player.Blank → (update m message).1.grid i j ≠ player.Blank := by
  constructor
  · intro c
    cases c
    · exact Or.inr (Or.inl rfl)
    · exact Or.inr (Or.inr rfl)
    · exact Or.inl rfl
  · intro m hr message hnr
    exact update_preserves_nonBlank m (reachable_currentPlayer_ne_blank hr) message hnr

theorem cells_never_return_witness :
    (update initialModel (msg.key "x")).1.grid 3 3 ≠ player.Blank :=
  cells_never_return_to_empty.2 initialModel Reachable.init (msg.key "x")
    (by decide) 3 3 (by decide)

/-- C7 counterexample: the opening placement at `(2,3)` flips exactly one
disk, yet the total of both players' scores rises from 4 to 5 — by exactly 1,
not by 1 + 1 as the claim states. -/
theorem score_sum_increment_counterexample :
    sumScores (takeTurn openingMoveModel).grid = 5 ∧
    sumScores openingMoveModel.grid = 4 ∧
    (takeTurn openingMoveModel).disksFlipped.length = 1 ∧
    ¬ (sumScores (takeTurn openingMoveModel).grid =
        sumScores openingMoveModel.grid +
          (1 + (takeTurn openingMoveModel).disksFlipped.length)) := by
  decide

/-- C7 (amended): the sum of both players' score tallies always equals the
number of non-empty cells; within a session it is non-decreasing from turn to
turn; and each placement increases it by exactly 1 — the flipped disks were
already non-empty (it is the mover's own tally, not the total, that grows by
1 + flips). -/
theorem score_sum_counts_occupied_cells :
    (∀ g : grid, sumScores g = (getNonBlankPoints g).length) ∧
    (∀ m : model, Reachable m → ∀ message : msg, ¬ restartStep m message →
      sumScores m.grid ≤ sumScores (update m message).1.grid) ∧
    ∀ m : model,
      m.availablePoints = getAvailablePoints m.grid m.currentPlayer m.rules →
      m.currentPlayer ≠ player.Blank →
      m.selectedPoint ∈ m.availablePoints →
      sumScores (takeTurn m).grid = sumScores m.grid + 1 := by
  refine ⟨sumScores_eq_nonBlank_length, ?_, takeTurn_sumScores⟩
  intro m hr message hnr
  exact sumScores_le_of_pointwise _ _
    (update_preserves_nonBlank m (reachable_currentPlayer_ne_blank hr) message hnr)

theorem score_sum_witness :
    sumScores othelloGrid = (getNonBlankPoints othelloGrid).length ∧
    sumScores initialModel.grid ≤ sumScores (update initialModel (msg.key "x")).1.grid ∧
    sumScores (takeTurn openingMoveModel).grid = sumScores openingMoveModel.grid + 1 :=
  ⟨score_sum_counts_occupied_cells.1 othelloGrid,
    score_sum_counts_occupied_cells.2.1 initialModel Reachable.init (msg.key "x") (by decide),
    score_sum_counts_occupied_cells.2.2 openingMoveModel (by decide) (by decide) (by decide)⟩

theorem update_pointSelection_select (m : model) (h : m.view = view.PointSelection)
    (s : String) (hs : s = "enter" ∨ s = " ") :
    update m (msg.key s) = (takeTurn m, none) := by
  obtain ⟨mg, msel, mv, mcp, mdf, mws, mav, mr, mpm⟩ := m
  cases h
  rcases hs with rfl | rfl <;>
    (dsimp only [update]; rw [if_neg (by decide), if_neg (by decide), if_neg (by decide),
      if_neg (by decide), if_neg (by decide), if_pos (by decide)])

/-- C9: in the placement phase, a select input at a point outside the current
legal-point list leaves the entire model unchanged and produces no command
(no error signal). -/
theorem illegal_placement_is_noop (m : model) (h : m.view = view.PointSelection)
    (hnot : m.selectedPoint ∉ m.availablePoints) :
    update m (msg.key "enter") = (m, none) ∧ update m (msg.key " ") = (m, none) := by
  have ht : takeTurn m = m := by
    rw [takeTurn, if_neg hnot]
  rw [update_pointSelection_select m h "enter" (Or.inl rfl),
    update_pointSelection_select m h " " (Or.inr rfl), ht]
  exact ⟨rfl, rfl⟩

theorem illegal_placement_witness :
    update illegalSelectModel (msg.key "enter") = (illegalSelectModel, none) ∧
    update illegalSelectModel (msg.key " ") = (illegalSelectModel, none) :=
  illegal_placement_is_noop illegalSelectModel (by decide) (by decide)

/-- C6 (code-defect exhibit): from the forced-pass phase of a one-player
modern-rules game on `passBugGrid` — where the dark (human) player has no
legal move and the light (computer-controlled) player does — any key press
makes the light player current yet enters the ordinary `PointSelection` view
that waits for an externally supplied point, instead of the
`PointSelectionComputer` sub-mode. -/
theorem forced_pass_enters_manual_selection_for_computer :
    getAvailablePoints passBugGrid player.DarkPlayer rules.OthelloRules = [] ∧
    getAvailablePoints passBugGrid player.LightPlayer rules.OthelloRules ≠ [] ∧
    (update passBugModel (msg.key "x")).1.view = view.PointSelection ∧
    (update passBugModel (msg.key "x")).1.currentPlayer = player.LightPlayer ∧
    isComputerTurn (update passBugModel (msg.key "x")).1 = true := by
  decide

end Reversi
